import Mathlib

/-
Verification of the must/may-defined-memory analysis core of the tsar
repository (src/src/DefinedMemory.h and src/src/MemoryAccessUtils.h).

The development shallowly embeds the C++ code: callback-style traversals
become functions returning lists of events, LLVM predicates on instructions
become boolean functions on an instruction model, and assertions become
Except values. Components of the repository that are referenced but whose
sources are not available (tsar_df_location.h: LocationSet, LocationDFValue)
are modelled from the specification and marked as such in doc comments.
-/

namespace Tsar

/-- Model of llvm::Value restricted to what isValidPtr inspects: whether the
value is UndefValue, whether it is ConstantPointerNull together with its
address space, plus an identity used to distinguish distinct values. -/
structure Value where
  isUndef : Bool
  isNull : Bool
  addrSpace : Nat
  vid : Nat
deriving DecidableEq

/-- Model of llvm::MemoryLocation: a base pointer value and a byte extent. -/
structure MemoryLocation where
  ptr : Value
  size : Nat
deriving DecidableEq

/-- AccessInfo from MemoryAccessUtils.h: assurance in a memory access. -/
inductive AccessInfo where
  | No : AccessInfo
  | May : AccessInfo
  | Must : AccessInfo
deriving DecidableEq

/-- Modelled from the spec: LocationDFValue (tsar_df_location.h is not under
src/). A data-flow lattice value over location sets with a full-universe
top element, as required by the description of MustReach: either the value
standing for every location, or an explicit collection of locations. -/
inductive LocationDFValue where
  | full : LocationDFValue
  | mask : List MemoryLocation → LocationDFValue
deriving DecidableEq

/-- Modelled from the spec: the value representing every location, the
identity element of intersection. -/
def LocationDFValue.fullValue : LocationDFValue := .full

/-- Modelled from the spec: the empty location-set value. -/
def LocationDFValue.emptyValue : LocationDFValue := .mask []

/-- Modelled from the spec: membership of a location in a data-flow value.
The full value contains every location. -/
def LocationDFValue.contain : LocationDFValue → MemoryLocation → Bool
  | .full, _ => true
  | .mask ls, L => decide (L ∈ ls)

/-- Modelled from the spec: intersect keeps only members present in both
values; the full value is the identity. Used for the MustReach meet. -/
def LocationDFValue.intersect : LocationDFValue → LocationDFValue → LocationDFValue
  | .full, w => w
  | v, .full => v
  | .mask a, .mask b => .mask (a.filter fun L => decide (L ∈ b))

/-- Modelled from the spec: merge is union; the full value absorbs.
Used for the MayReach meet. -/
def LocationDFValue.merge : LocationDFValue → LocationDFValue → LocationDFValue
  | .full, _ => .full
  | _, .full => .full
  | .mask a, .mask b => .mask (a ++ b)

/-- DefinitionInfo from DefinedMemory.h: whether a location has a definition
after a node in a data-flow graph. -/
structure DefinitionInfo where
  MustReach : LocationDFValue
  MayReach : LocationDFValue
deriving DecidableEq

/-- meetOperator of DataFlowTraits on PrivateDFFwk (DefinedMemory.h):
combining a predecessor OUT value LHS into an accumulating value RHS
replaces RHS.MustReach by its intersection with LHS.MustReach and
RHS.MayReach by its merge with LHS.MayReach. -/
def meetOperator (LHS RHS : DefinitionInfo) : DefinitionInfo :=
  { MustReach := RHS.MustReach.intersect LHS.MustReach
    MayReach := RHS.MayReach.merge LHS.MayReach }

/-- topElement of DataFlowTraits on PrivateDFFwk (DefinedMemory.h):
MustReach is the full value, MayReach is the empty value. -/
def topElement : DefinitionInfo :=
  { MustReach := LocationDFValue.fullValue
    MayReach := LocationDFValue.emptyValue }

/-- boundaryCondition of DataFlowTraits on PrivateDFFwk (DefinedMemory.h):
both MustReach and MayReach are the empty value. -/
def boundaryCondition : DefinitionInfo :=
  { MustReach := LocationDFValue.emptyValue
    MayReach := LocationDFValue.emptyValue }

/-- A sample location used to instantiate universally quantified theorems. -/
def locA : MemoryLocation :=
  { ptr := { isUndef := false, isNull := false, addrSpace := 0, vid := 1 }
    size := 4 }

/-- A sample predecessor value whose MustReach and MayReach hold locA. -/
def diWithA : DefinitionInfo :=
  { MustReach := LocationDFValue.mask [locA]
    MayReach := LocationDFValue.mask [locA] }

/-- A sample predecessor value with empty MustReach and MayReach. -/
def diEmpty : DefinitionInfo :=
  { MustReach := LocationDFValue.emptyValue
    MayReach := LocationDFValue.emptyValue }

/-- Classification of a call site callee as done in traverseActualParams
(MemoryAccessUtils.h): an intrinsic (with the marker status computed by
isMemoryMarkerIntrinsic and the argument indices enumerated by
foreachIntrinsicMemArg), a recognized library function (indices enumerated
by foreachLibFuncMemArg), or the general case (unknown or indirect callee).
The enumerated index lists stand for the tables of KnownFunctionTraits.h,
which are external to the analyzed headers. -/
inductive CalleeKind where
  | intrinsic (isMarker : Bool) (memArgIdxs : List Nat) : CalleeKind
  | libFunc (memArgIdxs : List Nat) : CalleeKind
  | general : CalleeKind
deriving DecidableEq

/-- Model of llvm::CallSite as consumed by traverseActualParams: the callee
classification, the actual arguments (pointer-typedness flag and value), and
the memory attributes queried by the traversal. -/
structure CallSiteInfo where
  callee : CalleeKind
  args : List (Bool × Value)
  doesNotAccessMemory : Bool
  doesNotReadMemory : Bool
  onlyReadsMemory : Bool
  onlyAccessesArgMemory : Bool
deriving DecidableEq

/-- Model of llvm::Instruction restricted to the opcodes distinguished by
the switch in for_each_memory: the load group (load, va_arg, atomicrmw,
cmpxchg), store, call, invoke, and a default case carrying the
mayReadFromMemory and mayWriteToMemory answers. Memory opcodes carry the
pointer operand and the byte extent of the accessed location; the ordered
flag of load and store models a volatile or non-unordered-atomic access. -/
inductive Instr where
  | load (ptr : Value) (sz : Nat) (ordered : Bool) : Instr
  | store (ptr : Value) (sz : Nat) (ordered : Bool) : Instr
  | vaarg (ptr : Value) (sz : Nat) : Instr
  | atomicRMW (ptr : Value) (sz : Nat) : Instr
  | atomicCmpXchg (ptr : Value) (sz : Nat) : Instr
  | call (cs : CallSiteInfo) : Instr
  | invoke (cs : CallSiteInfo) : Instr
  | other (mayRead : Bool) (mayWrite : Bool) : Instr
deriving DecidableEq

/-- llvm::Instruction::mayReadFromMemory for the modelled opcodes: loads,
va_arg and atomic instructions read; a store reads only when it is not
unordered; a call or invoke reads unless the callee does not access memory;
the default case carries its own flag. -/
def Instr.mayReadFromMemory : Instr → Bool
  | .load _ _ _ => true
  | .vaarg _ _ => true
  | .atomicRMW _ _ => true
  | .atomicCmpXchg _ _ => true
  | .store _ _ o => o
  | .call cs => !cs.doesNotAccessMemory
  | .invoke cs => !cs.doesNotAccessMemory
  | .other r _ => r

/-- llvm::Instruction::mayWriteToMemory for the modelled opcodes: stores,
va_arg and atomic instructions write; a load writes only when it is not
unordered; a call or invoke writes unless the callee only reads memory;
the default case carries its own flag. -/
def Instr.mayWriteToMemory : Instr → Bool
  | .load _ _ o => o
  | .vaarg _ _ => true
  | .atomicRMW _ _ => true
  | .atomicCmpXchg _ _ => true
  | .store _ _ _ => true
  | .call cs => !cs.onlyReadsMemory
  | .invoke cs => !cs.onlyReadsMemory
  | .other _ w => w

/-- llvm::Instruction::mayReadOrWriteMemory. -/
def Instr.mayReadOrWriteMemory (I : Instr) : Bool :=
  I.mayReadFromMemory || I.mayWriteToMemory

/-- Whether the instruction is a store (llvm::isa of StoreInst). -/
def Instr.isStore : Instr → Bool
  | .store _ _ _ => true
  | _ => false

/-- isValidPtr from for_each_memory (MemoryAccessUtils.h): an undef pointer
is invalid, and a constant null pointer is invalid unless null is defined in
its address space for the enclosing function. The npd argument models
llvm::NullPointerIsDefined for that function. -/
def isValidPtr (npd : Nat → Bool) (Ptr : Value) : Bool :=
  if Ptr.isUndef then false
  else if Ptr.isNull && !npd Ptr.addrSpace then false
  else true

/-- llvm::MemoryLocation::get for the single-location opcodes; none for
opcodes it does not support. -/
def MemoryLocation.getInst : Instr → Option MemoryLocation
  | .load p sz _ => some { ptr := p, size := sz }
  | .store p sz _ => some { ptr := p, size := sz }
  | .vaarg p sz => some { ptr := p, size := sz }
  | .atomicRMW p sz => some { ptr := p, size := sz }
  | .atomicCmpXchg p sz => some { ptr := p, size := sz }
  | _ => none

/-- Fallback value for an out-of-range argument index; it is undef, hence
filtered out by isValidPtr, so ill-formed indices yield no event. -/
def fallbackValue : Value :=
  { isUndef := true, isNull := false, addrSpace := 0, vid := 0 }

/-- The pointer value of the actual argument with a given index. -/
def CallSiteInfo.argPtr (cs : CallSiteInfo) (Idx : Nat) : Value :=
  (cs.args.getD Idx (false, fallbackValue)).2

/-- llvm::MemoryLocation::getForArgument modelled as the location based at
the actual argument value (the byte extent computed by LLVM from the target
library information is abstracted as zero; no theorem depends on it). -/
def MemoryLocation.getForArgument (cs : CallSiteInfo) (Idx : Nat) : MemoryLocation :=
  { ptr := cs.argPtr Idx, size := 0 }

/-- One callback invocation of for_each_memory: either the per-location
callback Func with its location, operand index and access assurances, or
the unknown-memory callback UnknownFunc with its assurances. -/
inductive MemEvent where
  | loc (L : MemoryLocation) (OpIdx : Nat) (IsRead : AccessInfo) (IsWrite : AccessInfo) : MemEvent
  | unknown (IsRead : AccessInfo) (IsWrite : AccessInfo) : MemEvent
deriving DecidableEq

/-- Whether an event is an UnknownFunc invocation. -/
def MemEvent.isUnknown : MemEvent → Bool
  | .unknown _ _ => true
  | _ => false

/-- The marker status of a call site: true exactly for a memory-marker
intrinsic, as computed in the intrinsic branch of traverseActualParams. -/
def CallSiteInfo.isMarkerCall (cs : CallSiteInfo) : Bool :=
  match cs.callee with
  | .intrinsic m _ => m
  | _ => false

/-- The Func invocations produced for the actual arguments of a call site
by traverseActualParams (MemoryAccessUtils.h): per callee classification,
each enumerated argument index yields an event when its pointer is valid,
with read assurance No exactly when the callee does not read memory (or the
intrinsic is a marker) and May otherwise, and write assurance No exactly
when the callee only reads memory (or the intrinsic is a marker) and May
otherwise; in the general case only pointer-typed arguments are traversed. -/
def actualParamEvents (npd : Nat → Bool) (cs : CallSiteInfo) : List MemEvent :=
  match cs.callee with
  | .intrinsic IsMarker idxs =>
    idxs.filterMap fun Idx =>
      let L := MemoryLocation.getForArgument cs Idx
      if isValidPtr npd L.ptr then
        some (.loc L Idx
          (if cs.doesNotReadMemory || IsMarker then .No else .May)
          (if cs.onlyReadsMemory || IsMarker then .No else .May))
      else none
  | .libFunc idxs =>
    idxs.filterMap fun Idx =>
      let L := MemoryLocation.getForArgument cs Idx
      if isValidPtr npd L.ptr then
        some (.loc L Idx
          (if cs.doesNotReadMemory then .No else .May)
          (if cs.onlyReadsMemory then .No else .May))
      else none
  | .general =>
    (List.range cs.args.length).filterMap fun Idx =>
      if !(cs.args.getD Idx (false, fallbackValue)).1 then none
      else
        let L := MemoryLocation.getForArgument cs Idx
        if isValidPtr npd L.ptr then
          some (.loc L Idx
            (if cs.doesNotReadMemory then .No else .May)
            (if cs.onlyReadsMemory then .No else .May))
        else none

/-- The UnknownFunc invocation of traverseActualParams: fired exactly when
the call site may access memory other than its arguments. -/
def callUnknownEvents (cs : CallSiteInfo) : List MemEvent :=
  if !cs.onlyAccessesArgMemory then
    [.unknown (if cs.doesNotReadMemory then .No else .May)
      (if cs.onlyReadsMemory then .No else .May)]
  else []

/-- traverseActualParams from for_each_memory (MemoryAccessUtils.h): the
argument events followed by the conditional unknown-memory event. -/
def traverseActualParams (npd : Nat → Bool) (cs : CallSiteInfo) : List MemEvent :=
  actualParamEvents npd cs ++ callUnknownEvents cs

/-- for_each_memory over one instruction (MemoryAccessUtils.h), with the
callback invocations collected in order as a list of events. -/
def forEachMemory (npd : Nat → Bool) (I : Instr) : List MemEvent :=
  match I with
  | .other mr mw =>
    if !(Instr.other mr mw).mayReadOrWriteMemory then []
    else
      [.unknown
        (if (Instr.other mr mw).mayReadFromMemory then .May else .No)
        (if (Instr.other mr mw).mayWriteToMemory then .May else .No)]
  | .load p sz o =>
    let L : MemoryLocation := { ptr := p, size := sz }
    if !isValidPtr npd L.ptr then []
    else
      [.loc L 0
        (if (Instr.load p sz o).mayReadFromMemory then .Must else .No)
        (if (Instr.load p sz o).mayWriteToMemory then .Must else .No)]
  | .vaarg p sz =>
    let L : MemoryLocation := { ptr := p, size := sz }
    if !isValidPtr npd L.ptr then []
    else
      [.loc L 0
        (if (Instr.vaarg p sz).mayReadFromMemory then .Must else .No)
        (if (Instr.vaarg p sz).mayWriteToMemory then .Must else .No)]
  | .atomicRMW p sz =>
    let L : MemoryLocation := { ptr := p, size := sz }
    if !isValidPtr npd L.ptr then []
    else
      [.loc L 0
        (if (Instr.atomicRMW p sz).mayReadFromMemory then .Must else .No)
        (if (Instr.atomicRMW p sz).mayWriteToMemory then .Must else .No)]
  | .atomicCmpXchg p sz =>
    let L : MemoryLocation := { ptr := p, size := sz }
    if !isValidPtr npd L.ptr then []
    else
      [.loc L 0
        (if (Instr.atomicCmpXchg p sz).mayReadFromMemory then .Must else .No)
        (if (Instr.atomicCmpXchg p sz).mayWriteToMemory then .Must else .No)]
  | .store p sz _ =>
    let L : MemoryLocation := { ptr := p, size := sz }
    if !isValidPtr npd L.ptr then []
    else [.loc L 1 .No .Must]
  | .call cs => traverseActualParams npd cs
  | .invoke cs => traverseActualParams npd cs

/-- for_each_memory over a whole function (MemoryAccessUtils.h): the
per-instruction traversal applied to each instruction of the body, once,
in order. -/
def forEachMemoryInFunction (npd : Nat → Bool) (F : List Instr) : List MemEvent :=
  F.flatMap (forEachMemory npd)

/-- A null-pointer-is-defined answer used to instantiate theorems. -/
def npdAll : Nat → Bool := fun _ => true

/-- An undef pointer value. -/
def undefV : Value := { isUndef := true, isNull := false, addrSpace := 0, vid := 0 }

/-- An ordinary valid pointer value. -/
def okV : Value := { isUndef := false, isNull := false, addrSpace := 0, vid := 2 }

/-- Modelled from the spec: LocationSet (tsar_df_location.h is not under
src/). A set of memory locations with exact membership, insertion reporting
whether the set changed, and a conservative overlap query delegated to an
external alias-overlap answer. -/
structure LocationSet where
  locs : List MemoryLocation
deriving DecidableEq

/-- Modelled from the spec: exact membership, no alias information used. -/
def LocationSet.contain (S : LocationSet) (L : MemoryLocation) : Bool :=
  decide (L ∈ S.locs)

/-- Modelled from the spec: true when any member may overlap L according to
the alias-overlap answer ov supplied by the external alias collaborator. -/
def LocationSet.overlap (ov : MemoryLocation → MemoryLocation → Bool)
    (S : LocationSet) (L : MemoryLocation) : Bool :=
  S.locs.any fun M => ov M L

/-- Modelled from the spec: insertion returning the updated set and whether
the set changed. -/
def LocationSet.insert (S : LocationSet) (L : MemoryLocation) :
    LocationSet × Bool :=
  if L ∈ S.locs then (S, false) else ({ locs := L :: S.locs }, true)

/-- DefUseSet from DefinedMemory.h: must-defined, may-defined and
outward-exposed-use location sets, the explicitly accessed instructions (the
AliasSetTracker is modelled as the collection of added instructions), the
address-taken pointers and the unknown instructions. Instruction and pointer
identity is modelled by the values themselves. -/
structure DefUseSet where
  mDefs : LocationSet
  mMayDefs : LocationSet
  mUses : LocationSet
  mExplicitInsts : List Instr
  mAddressAccesses : List Value
  mUnknownInsts : List Instr
deriving DecidableEq

/-- DefUseSet::hasDef: exact membership in the must-defined set; the method
does not use alias information. -/
def DefUseSet.hasDef (du : DefUseSet) (L : MemoryLocation) : Bool :=
  du.mDefs.contain L

/-- DefUseSet::addDef on a location: insertion returning whether the set
changed. -/
def DefUseSet.addDef (du : DefUseSet) (L : MemoryLocation) : DefUseSet × Bool :=
  let r := du.mDefs.insert L
  ({ du with mDefs := r.1 }, r.2)

/-- DefUseSet::hasMayDef: overlap query against the may-defined set, true
even when only part of the location may have a definition. -/
def DefUseSet.hasMayDef (ov : MemoryLocation → MemoryLocation → Bool)
    (du : DefUseSet) (L : MemoryLocation) : Bool :=
  du.mMayDefs.overlap ov L

/-- DefUseSet::addMayDef on a location. -/
def DefUseSet.addMayDef (du : DefUseSet) (L : MemoryLocation) : DefUseSet × Bool :=
  let r := du.mMayDefs.insert L
  ({ du with mMayDefs := r.1 }, r.2)

/-- DefUseSet::hasUse: overlap query against the use set. -/
def DefUseSet.hasUse (ov : MemoryLocation → MemoryLocation → Bool)
    (du : DefUseSet) (L : MemoryLocation) : Bool :=
  du.mUses.overlap ov L

/-- DefUseSet::addUse on a location. -/
def DefUseSet.addUse (du : DefUseSet) (L : MemoryLocation) : DefUseSet × Bool :=
  let r := du.mUses.insert L
  ({ du with mUses := r.1 }, r.2)

/-- DefUseSet::hasAddressAccess. -/
def DefUseSet.hasAddressAccess (du : DefUseSet) (Ptr : Value) : Bool :=
  decide (Ptr ∈ du.mAddressAccesses)

/-- DefUseSet::addAddressAccess: set insertion of the pointer, returning
whether the set changed. -/
def DefUseSet.addAddressAccess (du : DefUseSet) (Ptr : Value) :
    DefUseSet × Bool :=
  if Ptr ∈ du.mAddressAccesses then (du, false)
  else ({ du with mAddressAccesses := Ptr :: du.mAddressAccesses }, true)

/-- DefUseSet::hasUnknownInst. -/
def DefUseSet.hasUnknownInst (du : DefUseSet) (I : Instr) : Bool :=
  decide (I ∈ du.mUnknownInsts)

/-- DefUseSet::addUnknownInst: set insertion of the instruction, returning
whether the set changed. -/
def DefUseSet.addUnknownInst (du : DefUseSet) (I : Instr) : DefUseSet × Bool :=
  if I ∈ du.mUnknownInsts then (du, false)
  else ({ du with mUnknownInsts := I :: du.mUnknownInsts }, true)

/-- DefUseSet::addDef on an instruction: the assertion that only store
instructions produce must-defined locations becomes an error value; on a
store the stored location is added. -/
def DefUseSet.addDefInst (du : DefUseSet) (I : Instr) :
    Except String (DefUseSet × Bool) :=
  if !I.isStore then
    Except.error "Only store instructions produce must defined locations!"
  else
    match MemoryLocation.getInst I with
    | some L => Except.ok (du.addDef L)
    | none => Except.error "unsupported instruction for MemoryLocation"

/-- DefUseSet::addMayDef on an instruction: the assertion that the
instruction may modify memory becomes an error value; otherwise the
location of the instruction is added to the may-defined set. -/
def DefUseSet.addMayDefInst (du : DefUseSet) (I : Instr) :
    Except String (DefUseSet × Bool) :=
  if !I.mayWriteToMemory then
    Except.error "Instruction does not modify memory!"
  else
    match MemoryLocation.getInst I with
    | some L => Except.ok (du.addMayDef L)
    | none => Except.error "unsupported instruction for MemoryLocation"

/-- DefUseSet::addUse on an instruction: the assertion that the instruction
may read memory becomes an error value; otherwise the location of the
instruction is added to the use set. -/
def DefUseSet.addUseInst (du : DefUseSet) (I : Instr) :
    Except String (DefUseSet × Bool) :=
  if !I.mayReadFromMemory then
    Except.error "Instruction does not read memory!"
  else
    match MemoryLocation.getInst I with
    | some L => Except.ok (du.addUse L)
    | none => Except.error "unsupported instruction for MemoryLocation"

/-- DefUseSet::addExplicitAccess on an instruction: the assertion that the
instruction may read or write memory becomes an error value; otherwise the
instruction is recorded among the explicit accesses. -/
def DefUseSet.addExplicitAccessInst (du : DefUseSet) (I : Instr) :
    Except String (DefUseSet × Bool) :=
  if !I.mayReadOrWriteMemory then
    Except.error "Instruction does not read nor write memory!"
  else
    Except.ok
      (if I ∈ du.mExplicitInsts then (du, false)
       else ({ du with mExplicitInsts := I :: du.mExplicitInsts }, true))

/-- The structural condition under which for_each_memory is guaranteed to
fire a callback: a valid pointer operand for the single-location opcodes, a
callee that may access non-argument memory for calls and invokes, and no
further condition for the remaining opcodes. -/
def Instr.guaranteesCallback (npd : Nat → Bool) : Instr → Bool
  | .load p _ _ => isValidPtr npd p
  | .store p _ _ => isValidPtr npd p
  | .vaarg p _ => isValidPtr npd p
  | .atomicRMW p _ => isValidPtr npd p
  | .atomicCmpXchg p _ => isValidPtr npd p
  | .call cs => !cs.onlyAccessesArgMemory
  | .invoke cs => !cs.onlyAccessesArgMemory
  | .other _ _ => true

/-- The instructions of the load-group and store cases for which
for_each_memory computes the write assurance as Must when the instruction
may write to memory: stores, va_arg, atomic instructions, and ordered
loads. -/
def Instr.isMustWriteSource : Instr → Bool
  | .store _ _ _ => true
  | .vaarg _ _ => true
  | .atomicRMW _ _ => true
  | .atomicCmpXchg _ _ => true
  | .load _ _ o => o
  | _ => false

/-- An empty DefUseSet used to instantiate universally quantified theorems. -/
def duEmpty : DefUseSet :=
  { mDefs := { locs := [] }
    mMayDefs := { locs := [] }
    mUses := { locs := [] }
    mExplicitInsts := []
    mAddressAccesses := []
    mUnknownInsts := [] }

/-- A sample call site used to instantiate universally quantified theorems:
an unclassified callee with a single pointer argument and no memory
attributes. -/
def csSample : CallSiteInfo :=
  { callee := CalleeKind.general
    args := [(true, okV)]
    doesNotAccessMemory := false
    doesNotReadMemory := false
    onlyReadsMemory := false
    onlyAccessesArgMemory := false }

theorem LocationDFValue.contain_intersect (v w : LocationDFValue) (x : MemoryLocation) :
    (v.intersect w).contain x = (v.contain x && w.contain x) := by
  cases v <;> cases w <;> simp [intersect, contain, List.mem_filter]

theorem LocationDFValue.contain_merge (v w : LocationDFValue) (x : MemoryLocation) :
    (v.merge w).contain x = (v.contain x || w.contain x) := by
  cases v <;> cases w <;> simp [merge, contain, List.mem_append]

/-- Claim C1: the meet operator intersects MustReach and unions MayReach;
with a predecessor P1 whose MustReach holds x and a predecessor P2 whose
MustReach is empty, the met value does not hold x in MustReach, while its
MayReach holds any location held by either predecessor. -/
theorem meetOperator_correct (P1 P2 : DefinitionInfo) (x : MemoryLocation)
    (h1 : P1.MustReach.contain x = true)
    (h2 : P2.MustReach = LocationDFValue.emptyValue) :
    (meetOperator P1 P2).MustReach = P2.MustReach.intersect P1.MustReach ∧
    (meetOperator P1 P2).MayReach = P2.MayReach.merge P1.MayReach ∧
    (meetOperator P1 P2).MustReach.contain x = false ∧
    (∀ y : MemoryLocation,
      P1.MayReach.contain y = true ∨ P2.MayReach.contain y = true →
      (meetOperator P1 P2).MayReach.contain y = true) := by
  refine ⟨rfl, rfl, ?_, ?_⟩
  · show (P2.MustReach.intersect P1.MustReach).contain x = false
    rw [LocationDFValue.contain_intersect, h2]
    simp [LocationDFValue.emptyValue, LocationDFValue.contain]
  · intro y hy
    show (P2.MayReach.merge P1.MayReach).contain y = true
    rw [LocationDFValue.contain_merge]
    rcases hy with h | h <;> simp [h]

/-- Witness for C1 at concrete predecessor values. -/
theorem meetOperator_correct_witness :
    (meetOperator diWithA diEmpty).MustReach.contain locA = false :=
  (meetOperator_correct diWithA diEmpty locA (by decide) (by decide)).2.2.1

/-- Claim C2: the top element has a MustReach containing every location that
is the identity of intersection and an empty MayReach; the boundary
condition has empty MustReach and MayReach. -/
theorem topElement_boundaryCondition_correct :
    (∀ x : MemoryLocation, topElement.MustReach.contain x = true) ∧
    (∀ v : LocationDFValue, v.intersect topElement.MustReach = v) ∧
    (∀ x : MemoryLocation, topElement.MayReach.contain x = false) ∧
    (∀ x : MemoryLocation, boundaryCondition.MustReach.contain x = false) ∧
    (∀ x : MemoryLocation, boundaryCondition.MayReach.contain x = false) := by
  refine ⟨fun x => rfl, fun v => ?_, fun x => by simp [topElement,
    LocationDFValue.emptyValue, LocationDFValue.contain], fun x => by
    simp [boundaryCondition, LocationDFValue.emptyValue, LocationDFValue.contain],
    fun x => by simp [boundaryCondition, LocationDFValue.emptyValue,
      LocationDFValue.contain]⟩
  cases v <;> rfl

theorem mem_actualParamEvents (npd : Nat → Bool) (cs : CallSiteInfo)
    (e : MemEvent) (h : e ∈ actualParamEvents npd cs) :
    ∃ L Idx, e = MemEvent.loc L Idx
      (if cs.doesNotReadMemory || cs.isMarkerCall then AccessInfo.No
       else AccessInfo.May)
      (if cs.onlyReadsMemory || cs.isMarkerCall then AccessInfo.No
       else AccessInfo.May) := by
  unfold actualParamEvents at h
  unfold CallSiteInfo.isMarkerCall
  rcases hc : cs.callee with ⟨m, idxs⟩ | ⟨idxs⟩ | _ <;> rw [hc] at h <;>
    simp only [List.mem_filterMap] at h <;> obtain ⟨a, -, hfa⟩ := h
  · split at hfa
    · refine ⟨MemoryLocation.getForArgument cs a, a, ?_⟩
      simp only [Option.some.injEq] at hfa
      simp [← hfa]
    · exact absurd hfa (by simp)
  · split at hfa
    · refine ⟨MemoryLocation.getForArgument cs a, a, ?_⟩
      simp only [Option.some.injEq] at hfa
      simp [← hfa]
    · exact absurd hfa (by simp)
  · split at hfa
    · exact absurd hfa (by simp)
    · split at hfa
      · refine ⟨MemoryLocation.getForArgument cs a, a, ?_⟩
        simp only [Option.some.injEq] at hfa
        simp [← hfa]
      · exact absurd hfa (by simp)

theorem filter_unknown_actualParamEvents (npd : Nat → Bool) (cs : CallSiteInfo) :
    (actualParamEvents npd cs).filter MemEvent.isUnknown = [] := by
  rw [List.filter_eq_nil_iff]
  intro e he
  obtain ⟨L, Idx, rfl⟩ := mem_actualParamEvents npd cs e he
  simp [MemEvent.isUnknown]

/-- Claim C3 counterexample: a load from an undef pointer may read memory,
yet one traversal of for_each_memory fires neither callback for it. -/
theorem forEachMemory_skips_undef_load :
    (Instr.load undefV 4 false).mayReadOrWriteMemory = true ∧
    forEachMemory npdAll (Instr.load undefV 4 false) = [] :=
  ⟨rfl, rfl⟩

/-- Claim C3 as amended: for every instruction that may read or write
memory, one traversal of for_each_memory fires at least one of the two
callbacks provided the accessed pointer is valid (for the single-location
opcodes) or the callee may access non-argument memory (for calls and
invokes); and a traversal over a function body processes every instruction
exactly once, contributing its events exactly once, in order. -/
theorem forEachMemory_fires (npd : Nat → Bool) (I : Instr)
    (hmem : I.mayReadOrWriteMemory = true)
    (hval : I.guaranteesCallback npd = true) :
    forEachMemory npd I ≠ [] ∧
    (∀ F1 F2 : List Instr,
      forEachMemoryInFunction npd (F1 ++ I :: F2) =
        forEachMemoryInFunction npd F1 ++ forEachMemory npd I ++
          forEachMemoryInFunction npd F2) := by
  constructor
  · cases I with
    | load p sz o =>
      simp only [Instr.guaranteesCallback] at hval
      simp [forEachMemory, hval]
    | store p sz o =>
      simp only [Instr.guaranteesCallback] at hval
      simp [forEachMemory, hval]
    | vaarg p sz =>
      simp only [Instr.guaranteesCallback] at hval
      simp [forEachMemory, hval]
    | atomicRMW p sz =>
      simp only [Instr.guaranteesCallback] at hval
      simp [forEachMemory, hval]
    | atomicCmpXchg p sz =>
      simp only [Instr.guaranteesCallback] at hval
      simp [forEachMemory, hval]
    | call cs =>
      simp only [Instr.guaranteesCallback] at hval
      simp [forEachMemory, traverseActualParams, callUnknownEvents, hval]
    | invoke cs =>
      simp only [Instr.guaranteesCallback] at hval
      simp [forEachMemory, traverseActualParams, callUnknownEvents, hval]
    | other mr mw =>
      simp only [Instr.mayReadOrWriteMemory, Instr.mayReadFromMemory,
        Instr.mayWriteToMemory] at hmem
      simp [forEachMemory, Instr.mayReadOrWriteMemory, Instr.mayReadFromMemory,
        Instr.mayWriteToMemory, hmem]
  · intro F1 F2
    induction F1 with
    | nil => simp [forEachMemoryInFunction]
    | cons a as ih =>
      simp only [forEachMemoryInFunction, List.cons_append, List.flatMap_cons]
        at ih ⊢
      rw [ih]
      simp [List.append_assoc]

/-- Witness for the amended C3 at a load through a valid pointer. -/
theorem forEachMemory_fires_witness :
    forEachMemory npdAll (Instr.load okV 4 false) ≠ [] :=
  (forEachMemory_fires npdAll (Instr.load okV 4 false) (by decide)
    (by decide)).1

/-- Claim C4: every per-location event yielded for an actual argument of a
call or invoke carries read assurance No exactly when the callee does not
read memory or the intrinsic is a memory marker and May otherwise, write
assurance No exactly when the callee only reads memory or the intrinsic is
a memory marker and May otherwise; Must is never reported. -/
theorem callArgs_at_most_May (npd : Nat → Bool) (cs : CallSiteInfo) (I : Instr)
    (hI : I = Instr.call cs ∨ I = Instr.invoke cs)
    (L : MemoryLocation) (Idx : Nat) (r w : AccessInfo)
    (h : MemEvent.loc L Idx r w ∈ forEachMemory npd I) :
    r = (if cs.doesNotReadMemory || cs.isMarkerCall then AccessInfo.No
         else AccessInfo.May) ∧
    w = (if cs.onlyReadsMemory || cs.isMarkerCall then AccessInfo.No
         else AccessInfo.May) ∧
    r ≠ AccessInfo.Must ∧ w ≠ AccessInfo.Must := by
  have hmem : MemEvent.loc L Idx r w ∈ actualParamEvents npd cs := by
    rcases hI with rfl | rfl <;>
    · simp only [forEachMemory, traverseActualParams, List.mem_append] at h
      rcases h with h | h
      · exact h
      · exfalso
        unfold callUnknownEvents at h
        split at h <;> simp_all
  obtain ⟨L2, Idx2, he⟩ := mem_actualParamEvents npd cs _ hmem
  injection he with hL hIdx hr hw
  refine ⟨hr, hw, ?_, ?_⟩
  · rw [hr]; split <;> simp
  · rw [hw]; split <;> simp

/-- Witness for C4 at a call with one valid pointer argument. -/
theorem callArgs_at_most_May_witness :
    AccessInfo.May =
      (if csSample.doesNotReadMemory || csSample.isMarkerCall then AccessInfo.No
       else AccessInfo.May) ∧
    AccessInfo.May =
      (if csSample.onlyReadsMemory || csSample.isMarkerCall then AccessInfo.No
       else AccessInfo.May) ∧
    AccessInfo.May ≠ AccessInfo.Must ∧ AccessInfo.May ≠ AccessInfo.Must :=
  callArgs_at_most_May npdAll csSample (Instr.call csSample) (Or.inl rfl)
    { ptr := okV, size := 0 } 0 AccessInfo.May AccessInfo.May (by decide)

/-- Claim C5: the unknown-memory callback fires exactly once per call or
invoke whose callee may access non-argument memory and never otherwise,
exactly once per unclassified memory-accessing instruction, and never for
the single-location opcodes; it carries the coarse assurances computed from
the callee attributes or the instruction flags. -/
theorem unknownFunc_exactly_once (npd : Nat → Bool) (cs : CallSiteInfo)
    (p : Value) (sz : Nat) (o : Bool) (mr mw : Bool) :
    ((forEachMemory npd (Instr.call cs)).filter MemEvent.isUnknown =
      callUnknownEvents cs) ∧
    ((forEachMemory npd (Instr.invoke cs)).filter MemEvent.isUnknown =
      callUnknownEvents cs) ∧
    (cs.onlyAccessesArgMemory = false →
      callUnknownEvents cs =
        [MemEvent.unknown
          (if cs.doesNotReadMemory then AccessInfo.No else AccessInfo.May)
          (if cs.onlyReadsMemory then AccessInfo.No else AccessInfo.May)]) ∧
    (cs.onlyAccessesArgMemory = true → callUnknownEvents cs = []) ∧
    (mr || mw = true →
      (forEachMemory npd (Instr.other mr mw)).filter MemEvent.isUnknown =
        [MemEvent.unknown (if mr then AccessInfo.May else AccessInfo.No)
          (if mw then AccessInfo.May else AccessInfo.No)]) ∧
    ((forEachMemory npd (Instr.load p sz o)).filter MemEvent.isUnknown = []) ∧
    ((forEachMemory npd (Instr.store p sz o)).filter MemEvent.isUnknown = []) ∧
    ((forEachMemory npd (Instr.vaarg p sz)).filter MemEvent.isUnknown = []) ∧
    ((forEachMemory npd (Instr.atomicRMW p sz)).filter MemEvent.isUnknown = []) ∧
    ((forEachMemory npd (Instr.atomicCmpXchg p sz)).filter
        MemEvent.isUnknown = []) := by
  have hcall : (traverseActualParams npd cs).filter MemEvent.isUnknown =
      callUnknownEvents cs := by
    rw [traverseActualParams, List.filter_append,
      filter_unknown_actualParamEvents, List.nil_append]
    unfold callUnknownEvents
    split <;> simp [MemEvent.isUnknown]
  refine ⟨hcall, hcall, ?_, ?_, ?_, ?_, ?_, ?_, ?_, ?_⟩
  · intro hx; simp [callUnknownEvents, hx]
  · intro hx; simp [callUnknownEvents, hx]
  · intro hx
    cases mr <;> cases mw <;>
      simp_all [forEachMemory, Instr.mayReadOrWriteMemory,
        Instr.mayReadFromMemory, Instr.mayWriteToMemory, MemEvent.isUnknown]
  · simp only [forEachMemory]; split <;> simp [MemEvent.isUnknown]
  · simp only [forEachMemory]; split <;> simp [MemEvent.isUnknown]
  · simp only [forEachMemory]; split <;> simp [MemEvent.isUnknown]
  · simp only [forEachMemory]; split <;> simp [MemEvent.isUnknown]
  · simp only [forEachMemory]; split <;> simp [MemEvent.isUnknown]

/-- Witness for C5 at an unclassified instruction that only reads. -/
theorem unknownFunc_exactly_once_witness :
    (forEachMemory npdAll (Instr.other true false)).filter MemEvent.isUnknown =
      [MemEvent.unknown AccessInfo.May AccessInfo.No] :=
  (unknownFunc_exactly_once npdAll csSample okV 4 false true
    false).2.2.2.2.1 rfl

/-- Claim C6: hasDef is exact membership in the must-defined set, while
hasMayDef and hasUse hold exactly when some member of the respective set
overlaps the queried location according to the alias-overlap answer. -/
theorem hasDef_hasMayDef_hasUse_correct
    (ov : MemoryLocation → MemoryLocation → Bool)
    (du : DefUseSet) (L : MemoryLocation) :
    (du.hasDef L = true ↔ L ∈ du.mDefs.locs) ∧
    (DefUseSet.hasMayDef ov du L = true ↔
      ∃ M ∈ du.mMayDefs.locs, ov M L = true) ∧
    (DefUseSet.hasUse ov du L = true ↔
      ∃ M ∈ du.mUses.locs, ov M L = true) := by
  refine ⟨?_, ?_, ?_⟩ <;>
    simp [DefUseSet.hasDef, DefUseSet.hasMayDef, DefUseSet.hasUse,
      LocationSet.contain, LocationSet.overlap, List.any_eq_true]

theorem addDef_spec (du : DefUseSet) (L : MemoryLocation) :
    ((du.addDef L).2 = true ↔ L ∉ du.mDefs.locs) ∧
    ((du.addDef L).1.addDef L).2 = false ∧
    ((du.addDef L).1.addDef L).1 = (du.addDef L).1 := by
  by_cases h : L ∈ du.mDefs.locs <;>
    simp [DefUseSet.addDef, LocationSet.insert, h]

theorem addMayDef_spec (du : DefUseSet) (L : MemoryLocation) :
    ((du.addMayDef L).2 = true ↔ L ∉ du.mMayDefs.locs) ∧
    ((du.addMayDef L).1.addMayDef L).2 = false ∧
    ((du.addMayDef L).1.addMayDef L).1 = (du.addMayDef L).1 := by
  by_cases h : L ∈ du.mMayDefs.locs <;>
    simp [DefUseSet.addMayDef, LocationSet.insert, h]

theorem addUse_spec (du : DefUseSet) (L : MemoryLocation) :
    ((du.addUse L).2 = true ↔ L ∉ du.mUses.locs) ∧
    ((du.addUse L).1.addUse L).2 = false ∧
    ((du.addUse L).1.addUse L).1 = (du.addUse L).1 := by
  by_cases h : L ∈ du.mUses.locs <;>
    simp [DefUseSet.addUse, LocationSet.insert, h]

theorem addAddressAccess_spec (du : DefUseSet) (Ptr : Value) :
    ((du.addAddressAccess Ptr).2 = true ↔ Ptr ∉ du.mAddressAccesses) ∧
    ((du.addAddressAccess Ptr).1.addAddressAccess Ptr).2 = false ∧
    ((du.addAddressAccess Ptr).1.addAddressAccess Ptr).1 =
      (du.addAddressAccess Ptr).1 := by
  by_cases h : Ptr ∈ du.mAddressAccesses <;>
    simp [DefUseSet.addAddressAccess, h]

theorem addUnknownInst_spec (du : DefUseSet) (I : Instr) :
    ((du.addUnknownInst I).2 = true ↔ I ∉ du.mUnknownInsts) ∧
    ((du.addUnknownInst I).1.addUnknownInst I).2 = false ∧
    ((du.addUnknownInst I).1.addUnknownInst I).1 = (du.addUnknownInst I).1 := by
  by_cases h : I ∈ du.mUnknownInsts <;>
    simp [DefUseSet.addUnknownInst, h]

/-- Claim C7: each insertion operation returns true exactly when the
element was not already present, and a second insertion of the same element
returns false and leaves the set unchanged. -/
theorem add_returns_changed (du : DefUseSet) (L : MemoryLocation)
    (Ptr : Value) (I : Instr) :
    (((du.addDef L).2 = true ↔ L ∉ du.mDefs.locs) ∧
      ((du.addDef L).1.addDef L).2 = false ∧
      ((du.addDef L).1.addDef L).1 = (du.addDef L).1) ∧
    (((du.addMayDef L).2 = true ↔ L ∉ du.mMayDefs.locs) ∧
      ((du.addMayDef L).1.addMayDef L).2 = false ∧
      ((du.addMayDef L).1.addMayDef L).1 = (du.addMayDef L).1) ∧
    (((du.addUse L).2 = true ↔ L ∉ du.mUses.locs) ∧
      ((du.addUse L).1.addUse L).2 = false ∧
      ((du.addUse L).1.addUse L).1 = (du.addUse L).1) ∧
    (((du.addAddressAccess Ptr).2 = true ↔ Ptr ∉ du.mAddressAccesses) ∧
      ((du.addAddressAccess Ptr).1.addAddressAccess Ptr).2 = false ∧
      ((du.addAddressAccess Ptr).1.addAddressAccess Ptr).1 =
        (du.addAddressAccess Ptr).1) ∧
    (((du.addUnknownInst I).2 = true ↔ I ∉ du.mUnknownInsts) ∧
      ((du.addUnknownInst I).1.addUnknownInst I).2 = false ∧
      ((du.addUnknownInst I).1.addUnknownInst I).1 = (du.addUnknownInst I).1) :=
  ⟨addDef_spec du L, addMayDef_spec du L, addUse_spec du L,
    addAddressAccess_spec du Ptr, addUnknownInst_spec du I⟩

/-- Claim C8: the precondition assertions of the instruction-level
operations are faithful: with the precondition violated each operation
stops with its assertion message, and with the precondition satisfied the
assertion branch is unreachable; an instruction that neither reads nor
writes memory stops addExplicitAccess immediately. -/
theorem assert_preconditions (du : DefUseSet) (I : Instr) :
    (I.mayWriteToMemory = false →
      du.addMayDefInst I = Except.error "Instruction does not modify memory!") ∧
    (I.mayWriteToMemory = true →
      du.addMayDefInst I ≠ Except.error "Instruction does not modify memory!") ∧
    (I.mayReadFromMemory = false →
      du.addUseInst I = Except.error "Instruction does not read memory!") ∧
    (I.mayReadFromMemory = true →
      du.addUseInst I ≠ Except.error "Instruction does not read memory!") ∧
    (I.mayReadOrWriteMemory = false →
      du.addExplicitAccessInst I =
        Except.error "Instruction does not read nor write memory!") ∧
    (I.mayReadOrWriteMemory = true →
      ∃ res, du.addExplicitAccessInst I = Except.ok res) := by
  refine ⟨?_, ?_, ?_, ?_, ?_, ?_⟩
  · intro hx; simp [DefUseSet.addMayDefInst, hx]
  · intro hx
    simp only [DefUseSet.addMayDefInst, hx, Bool.not_true, Bool.false_eq_true,
      if_false]
    cases hg : MemoryLocation.getInst I <;> simp
  · intro hx; simp [DefUseSet.addUseInst, hx]
  · intro hx
    simp only [DefUseSet.addUseInst, hx, Bool.not_true, Bool.false_eq_true,
      if_false]
    cases hg : MemoryLocation.getInst I <;> simp
  · intro hx; simp [DefUseSet.addExplicitAccessInst, hx]
  · intro hx
    simp [DefUseSet.addExplicitAccessInst, hx]

/-- Witness for C8 at an instruction that neither reads nor writes. -/
theorem assert_preconditions_witness :
    duEmpty.addMayDefInst (Instr.other false false) =
      Except.error "Instruction does not modify memory!" ∧
    duEmpty.addUseInst (Instr.other false false) =
      Except.error "Instruction does not read memory!" ∧
    duEmpty.addExplicitAccessInst (Instr.other false false) =
      Except.error "Instruction does not read nor write memory!" :=
  ⟨(assert_preconditions duEmpty (Instr.other false false)).1 rfl,
    (assert_preconditions duEmpty (Instr.other false false)).2.2.1 rfl,
    (assert_preconditions duEmpty (Instr.other false false)).2.2.2.2.1 rfl⟩

/-- Claim C9 counterexample: an atomicrmw instruction is reported by
for_each_memory with write assurance Must, and it is not a store. -/
theorem mustWrite_not_store_cex :
    forEachMemory npdAll (Instr.atomicRMW okV 4) =
      [MemEvent.loc { ptr := okV, size := 4 } 0 AccessInfo.Must
        AccessInfo.Must] ∧
    (Instr.atomicRMW okV 4).isStore = false :=
  ⟨rfl, rfl⟩

/-- Claim C9 as amended: every instruction reported with write assurance
Must is a store, va_arg, atomic instruction, or ordered load; the addDef
assertion that only stores produce must-defined locations rejects every
non-store among them. -/
theorem mustWrite_instructions (npd : Nat → Bool) (I : Instr)
    (L : MemoryLocation) (Idx : Nat) (r : AccessInfo)
    (h : MemEvent.loc L Idx r AccessInfo.Must ∈ forEachMemory npd I) :
    I.isMustWriteSource = true ∧
    (∀ du : DefUseSet, I.isStore = false →
      du.addDefInst I =
        Except.error "Only store instructions produce must defined locations!") := by
  constructor
  · cases I with
    | load p sz o =>
      cases o with
      | false =>
        exfalso
        simp only [forEachMemory, Instr.mayReadFromMemory,
          Instr.mayWriteToMemory] at h
        split at h <;> simp_all
      | true => rfl
    | store p sz o => rfl
    | vaarg p sz => rfl
    | atomicRMW p sz => rfl
    | atomicCmpXchg p sz => rfl
    | call cs =>
      exfalso
      simp only [forEachMemory, traverseActualParams, List.mem_append] at h
      rcases h with h | h
      · obtain ⟨L2, Idx2, he⟩ := mem_actualParamEvents npd cs _ h
        injection he with hL hIdx hr hw
        revert hw; split <;> simp
      · unfold callUnknownEvents at h
        split at h <;> simp_all
    | invoke cs =>
      exfalso
      simp only [forEachMemory, traverseActualParams, List.mem_append] at h
      rcases h with h | h
      · obtain ⟨L2, Idx2, he⟩ := mem_actualParamEvents npd cs _ h
        injection he with hL hIdx hr hw
        revert hw; split <;> simp
      · unfold callUnknownEvents at h
        split at h <;> simp_all
    | other mr mw =>
      exfalso
      simp only [forEachMemory] at h
      split at h <;> simp_all
  · intro du hns
    simp [DefUseSet.addDefInst, hns]

/-- Witness for the amended C9 at an atomicrmw through a valid pointer. -/
theorem mustWrite_instructions_witness :
    (Instr.atomicRMW okV 4).isMustWriteSource = true ∧
    duEmpty.addDefInst (Instr.atomicRMW okV 4) =
      Except.error "Only store instructions produce must defined locations!" :=
  ⟨(mustWrite_instructions npdAll (Instr.atomicRMW okV 4)
      { ptr := okV, size := 4 } 0 AccessInfo.Must (by decide)).1,
    (mustWrite_instructions npdAll (Instr.atomicRMW okV 4)
      { ptr := okV, size := 4 } 0 AccessInfo.Must (by decide)).2 duEmpty rfl⟩

/-- Claim C10: the unknown-memory callback never carries assurance Must in
either component. -/
theorem unknownFunc_never_Must (npd : Nat → Bool) (I : Instr)
    (r w : AccessInfo)
    (h : MemEvent.unknown r w ∈ forEachMemory npd I) :
    (r = AccessInfo.No ∨ r = AccessInfo.May) ∧
    (w = AccessInfo.No ∨ w = AccessInfo.May) := by
  cases I with
  | load p sz o =>
    exfalso; simp only [forEachMemory] at h; split at h <;> simp_all
  | store p sz o =>
    exfalso; simp only [forEachMemory] at h; split at h <;> simp_all
  | vaarg p sz =>
    exfalso; simp only [forEachMemory] at h; split at h <;> simp_all
  | atomicRMW p sz =>
    exfalso; simp only [forEachMemory] at h; split at h <;> simp_all
  | atomicCmpXchg p sz =>
    exfalso; simp only [forEachMemory] at h; split at h <;> simp_all
  | call cs =>
    simp only [forEachMemory, traverseActualParams, List.mem_append] at h
    rcases h with h | h
    · obtain ⟨L, Idx, he⟩ := mem_actualParamEvents npd cs _ h
      exact absurd he (by simp)
    · unfold callUnknownEvents at h
      split at h
      · simp only [List.mem_singleton] at h
        injection h with hr hw
        constructor
        · rw [hr]; split <;> simp
        · rw [hw]; split <;> simp
      · simp at h
  | invoke cs =>
    simp only [forEachMemory, traverseActualParams, List.mem_append] at h
    rcases h with h | h
    · obtain ⟨L, Idx, he⟩ := mem_actualParamEvents npd cs _ h
      exact absurd he (by simp)
    · unfold callUnknownEvents at h
      split at h
      · simp only [List.mem_singleton] at h
        injection h with hr hw
        constructor
        · rw [hr]; split <;> simp
        · rw [hw]; split <;> simp
      · simp at h
  | other mr mw =>
    simp only [forEachMemory] at h
    split at h
    · simp at h
    · simp only [List.mem_singleton] at h
      injection h with hr hw
      constructor
      · rw [hr]; split <;> simp
      · rw [hw]; split <;> simp

/-- Witness for C10 at an unclassified instruction that only reads. -/
theorem unknownFunc_never_Must_witness :
    (AccessInfo.May = AccessInfo.No ∨ AccessInfo.May = AccessInfo.May) ∧
    (AccessInfo.No = AccessInfo.No ∨ AccessInfo.No = AccessInfo.May) :=
  unknownFunc_never_Must npdAll (Instr.other true false) AccessInfo.May
    AccessInfo.No (by decide)

end Tsar
